import Mathlib

/-
Verification of the MIR lvalue-lowering stage of the moore SystemVerilog
front end, as implemented in `src/svlog/mir/lower/lvalue.rs`.

The development shallowly embeds the lowering engine:
  * `mirLvalue`      embeds `mir_lvalue` (query entry point),
  * `lowerExprInner` embeds `lower_expr_inner` (shape dispatch),
  * `lowerCast`      embeds `lower_cast` (cast-chain application),
  * `packTy` / `packSimpleBitVector`, `packFields`, `packElems` embed
    `pack_simple_bit_vector`, `pack_struct` and `pack_array`.

External collaborators (the interned type model, name resolution, the
sibling rvalue-lowering query, indexing normalization and constant
evaluation) are modelled from the specification: resolution results are
carried as oracle data on each expression node, exactly the data the
source obtains from its `cx` queries.  Fatal internal faults
(`assert_span!`, `assert_type!`, `bug_span!`, `.unwrap()` panics) are
modelled as a distinguished `abort` outcome; user diagnostics emitted via
`cx.emit` are collected in a list.
-/

set_option maxHeartbeats 1000000

namespace Moore

/-- Modelled from the spec: the value domain of a type (two-valued or
four-valued logic). -/
inductive Domain where
  | twoValued
  | fourValued
deriving DecidableEq

/-- Modelled from the spec: the signedness of a simple bit vector type. -/
inductive Sign where
  | signed
  | unsigned
deriving DecidableEq

/-- Modelled from the spec: a (sized) dimension declared `[hi:lo]`. -/
structure Dim where
  hi : Int
  lo : Int
deriving DecidableEq

/-- Modelled from the spec: the number of elements of a dimension `[hi:lo]`. -/
def Dim.size (d : Dim) : Nat := (d.hi - d.lo).natAbs + 1

/-- Modelled from the spec: the external interned type description
(`UnpackedType` of the `ty` module).  `error` is the distinguished error
type; `logicTy` is a dimension-less integer-vector core (a single bit,
e.g. bare `logic`); `intVec` is an integer vector with one declared
dimension `[hi:lo]` (a simple bit vector); `arr` adds an outer array
dimension `[hi:lo]` over an element type; `strukt` is a (non-coalescing)
struct with its member types in declaration order; `intf` is an
interface type. -/
inductive UnpackedType where
  | error
  | logicTy (domain : Domain) (sign : Sign)
  | intVec (domain : Domain) (sign : Sign) (hi lo : Int)
  | arr (hi lo : Int) (elem : UnpackedType)
  | strukt (members : List UnpackedType)
  | intf (id : Nat)

namespace UnpackedType

/-- Modelled from the spec: whether the type is the error type. -/
def isError : UnpackedType → Bool
  | .error => true
  | _ => false

/-- Modelled from the spec: `resolve_full().core.get_interface()` — the
interface behind a type, if any. -/
def getIntf : UnpackedType → Option Nat
  | .intf i => some i
  | _ => none

/-- Modelled from the spec: `get_struct()` — the struct behind a type,
with its member types in declaration order. -/
def getStruct : UnpackedType → Option (List UnpackedType)
  | .strukt ms => some ms
  | _ => none

/-- Modelled from the spec: whether the type already coalesces to a flat
scalar vector (the O(1) base case of packing). -/
def coalescesToLlhdScalar : UnpackedType → Bool
  | .logicTy _ _ => true
  | .intVec _ _ _ _ => true
  | _ => false

/-- Modelled from the spec: `dims().next()` — the outermost declared
dimension of the type, if any. -/
def dimsHead : UnpackedType → Option Dim
  | .intVec _ _ hi lo => some ⟨hi, lo⟩
  | .arr hi lo _ => some ⟨hi, lo⟩
  | _ => none

/-- Modelled from the spec: `pop_dim` — the type with its outermost
dimension removed. -/
def popDim : UnpackedType → Option UnpackedType
  | .intVec d s _ _ => some (.logicTy d s)
  | .arr _ _ e => some e
  | _ => none

mutual

/-- Modelled from the spec: `get_bit_size()` — the total declared bit
width of the type. -/
def bitSize : UnpackedType → Option Nat
  | .error => none
  | .logicTy _ _ => some 1
  | .intVec _ _ hi lo => some ((hi - lo).natAbs + 1)
  | .arr hi lo e =>
    match bitSize e with
    | some w => some (((hi - lo).natAbs + 1) * w)
    | none => none
  | .strukt ms => bitSizeList ms
  | .intf _ => none

/-- Modelled from the spec: summed bit width of a member list. -/
def bitSizeList : List UnpackedType → Option Nat
  | [] => some 0
  | t :: ts =>
    match bitSize t, bitSizeList ts with
    | some w, some ws => some (w + ws)
    | _, _ => none

end

mutual

/-- Modelled from the spec: `domain()` — four-valued if any component is. -/
def domain : UnpackedType → Domain
  | .logicTy d _ => d
  | .intVec d _ _ _ => d
  | .arr _ _ e => domain e
  | .strukt ms => domainList ms
  | _ => .twoValued

/-- Modelled from the spec: joined domain of a member list. -/
def domainList : List UnpackedType → Domain
  | [] => .twoValued
  | t :: ts =>
    match domain t with
    | .fourValued => .fourValued
    | .twoValued => domainList ts

end

/-- Modelled from the spec: signedness reported by the simple-bit-vector
view of a type. -/
def signOf : UnpackedType → Sign
  | .logicTy _ s => s
  | .intVec _ s _ _ => s
  | _ => .unsigned

/-- Modelled from the spec: the fast-path test of `pack_array` — the
element type has no further dimensions (`dims().next().is_none()`) and its
packed core is an integer vector (`PackedCore::IntVec`), so the whole
array is already contiguous. -/
def isTrivialFlat : UnpackedType → Bool
  | .logicTy _ _ => true
  | _ => false

/-- Modelled from the spec: `is_simple_bit_vector()`. -/
def isSimpleBitVector : UnpackedType → Bool
  | .logicTy _ _ => true
  | .intVec _ _ _ _ => true
  | _ => false

/-- Modelled from the spec: `SbvType::new(domain, sign, width).to_unpacked`
— the packed integer vector `[width-1:0]`. -/
def sbvToUnpacked (dom : Domain) (sign : Sign) (width : Nat) : UnpackedType :=
  .intVec dom sign ((width : Int) - 1) 0

/-- Modelled from the spec: `simple_bit_vector(..).forget().to_unpacked(..)`
— the flat bit-vector type of the same total width (`none` models the
internal fault raised when the type has no bit-vector equivalent). -/
def sbvtOf (t : UnpackedType) : Option UnpackedType :=
  match bitSize t with
  | some w => some (sbvToUnpacked (domain t) (signOf t) w)
  | none => none

mutual

/-- Modelled from the spec: interned types are compared by
identity-preserving structural equality (`is_identical`). -/
def isIdentical : UnpackedType → UnpackedType → Bool
  | .error, .error => true
  | .logicTy d s, .logicTy d' s' => d == d' && s == s'
  | .intVec d s hi lo, .intVec d' s' hi' lo' =>
    d == d' && s == s' && hi == hi' && lo == lo'
  | .arr hi lo e, .arr hi' lo' e' => hi == hi' && lo == lo' && isIdentical e e'
  | .strukt ms, .strukt ms' => isIdenticalList ms ms'
  | .intf i, .intf i' => i == i'
  | _, _ => false

/-- Modelled from the spec: member-wise structural identity. -/
def isIdenticalList : List UnpackedType → List UnpackedType → Bool
  | [], [] => true
  | t :: ts, t' :: ts' => isIdentical t t' && isIdenticalList ts ts'
  | _, _ => false

end

end UnpackedType

/-- Modelled from the spec: the kind of an rvalue produced by the sibling
value-lowering query.  `const` is a compile-time constant
(`RvalueKind::Const`); `ext` is any other externally lowered value;
`sub` is the subtraction node built when an index is re-based against a
dimension with a nonzero low bound. -/
inductive RvalueKind where
  | const (k : Int)
  | ext (tag : Nat)
  | sub (base : RvalueKind) (offset : Int)
deriving DecidableEq

/-- Modelled from the spec: an rvalue node (type plus kind). -/
structure Rvalue where
  ty : UnpackedType
  kind : RvalueKind

mutual

/-- An MIR lvalue node: its resolved type and its tagged kind.  Embeds the
`Lvalue` struct (session ids, origin and span are omitted: no claim
depends on them). -/
inductive Lvalue where
  | mk (ty : UnpackedType) (kind : LvalueKind)

/-- The `LvalueKind` sum of `mir/lvalue.rs`. -/
inductive LvalueKind where
  | error
  | genvar (id : Nat)
  | var (id : Nat)
  | port (id : Nat)
  | intf (id : Nat)
  | intfSignal (value : Lvalue) (member : Nat)
  | index (value : Lvalue) (base : Rvalue) (length : Nat)
  | member (value : Lvalue) (field : Nat)
  | concat (values : List Lvalue)
  | rep (count : Nat) (value : Lvalue)
  | transmute (value : Lvalue)

end

/-- The resolved type of an lvalue node. -/
def Lvalue.ty : Lvalue → UnpackedType
  | .mk t _ => t

/-- The kind tag of an lvalue node. -/
def Lvalue.kind : Lvalue → LvalueKind
  | .mk _ k => k

/-- Modelled from the spec: the single predicate recognizing the
distinguished Error node (`Lvalue::is_error`). -/
def Lvalue.isError : Lvalue → Bool
  | .mk _ .error => true
  | .mk _ _ => false

/-- The node returned by `Builder::error()`: `LvalueKind::Error` carrying
the error type. -/
def errorLvalue : Lvalue := .mk .error .error

/-- The `CastOp` primitive cast operations handled in lvalue position
(`typeck::CastOp`); `otherOp` stands for every other operation, which is
an unsupported-operation internal fault in lvalue position. -/
inductive CastOp where
  | packSBVT
  | pickModport
  | otherOp (tag : Nat)
deriving DecidableEq

/-- The `CastType` computed externally by the type checker: initial type,
final type, and ordered (operation, target type) steps. -/
structure CastType where
  init : UnpackedType
  ty : UnpackedType
  casts : List (CastOp × UnpackedType)

/-- Modelled from the spec: `CastType::is_error` — an error chain. -/
def CastType.isError (c : CastType) : Bool :=
  c.init.isError || c.ty.isError

/-- Result of a lowering step that can only terminate normally with a
node or hit a fatal internal fault (`assert_span!` / `assert_type!` /
`bug_span!` / `.unwrap()` panic), which aborts the process. -/
inductive Outcome where
  | ok (lv : Lvalue)
  | abort

/-- View of an `Outcome` as an optional node. -/
def Outcome.toOption : Outcome → Option Lvalue
  | .ok lv => some lv
  | .abort => none

/-- The 32-bit two-valued unsigned type
`SbvType::new(ty::Domain::TwoValued, ty::Sign::Unsigned, 32)` used by
`pack_array` for its element-index constants. -/
def int32Ty : UnpackedType := UnpackedType.sbvToUnpacked .twoValued .unsigned 32

mutual

/-- Embeds `pack_simple_bit_vector` (lvalue.rs lines 342-368), with the
dispatching type passed explicitly (the caller always passes `value.ty`,
see `packSimpleBitVector`): an Error value is returned unchanged; the
simple-bit-vector result type is computed (fault if the type has none);
a coalescing type is wrapped in `Transmute`; an array type goes to the
array path, a struct type to the struct path; anything else is an
internal fault. -/
def packTy : UnpackedType → Lvalue → Outcome
  | ty, value =>
    if value.isError then .ok value
    else
      match UnpackedType.sbvtOf ty with
      | none => .abort
      | some sbvTy =>
        if ty.coalescesToLlhdScalar then .ok (.mk sbvTy (.transmute value))
        else
          match ty with
          | .arr hi lo elemTy =>
            if elemTy.isTrivialFlat then .ok (.mk sbvTy (.transmute value))
            else
              match packElems elemTy value ((hi - lo).natAbs + 1) with
              | some es => .ok (.mk sbvTy (.concat es))
              | none => .abort
          | .strukt ms =>
            match packFields ms value 0 with
            | some es => .ok (.mk sbvTy (.concat es))
            | none => .abort
          | _ => .abort
termination_by ty value => (sizeOf ty, 0, 0)

/-- Embeds the element loop of `pack_array` (lvalue.rs lines 418-447):
`packElems elemTy value n` builds, for the element indices `n-1` down to
`0`, an `Index` lvalue of length 0 whose base is a 32-bit two-valued
unsigned constant holding the index, packs it recursively, and collects
the results in that same (descending-index) order; `none` models the
fatal fault of a failing recursive pack. -/
def packElems : UnpackedType → Lvalue → Nat → Option (List Lvalue)
  | _, _, 0 => some []
  | elemTy, value, n + 1 =>
    match packTy elemTy (.mk elemTy (.index value ⟨int32Ty, .const (n : Int)⟩ 0)),
        packElems elemTy value n with
    | .ok e, some rest => some (e :: rest)
    | _, _ => none
termination_by elemTy value n => (sizeOf elemTy, 1, n)

/-- Embeds the member loop of `pack_struct` (lvalue.rs lines 371-387):
for each member in declaration order build a `Member` lvalue with its
ordinal, pack it recursively, and collect the results in declaration
order. -/
def packFields : List UnpackedType → Lvalue → Nat → Option (List Lvalue)
  | [], _, _ => some []
  | m :: rest, value, i =>
    match packTy m (.mk m (.member value i)), packFields rest value (i + 1) with
    | .ok e, some es => some (e :: es)
    | _, _ => none
termination_by ms value i => (sizeOf ms, 1, 0)

end

/-- Embeds `pack_simple_bit_vector`: dispatch on the value's own type. -/
def packSimpleBitVector (value : Lvalue) : Outcome := packTy value.ty value

/-- Embeds the cast loop of `lower_cast` (lvalue.rs lines 299-325): apply
each (operation, target) step in order.  `PackSBVT` asserts the target is
a simple-bit-vector shape and packs; `PickModport` relabels the value's
type without changing its kind; any other operation in lvalue position is
an internal fault.  A mismatch between the running type and a step's
target is only logged (`error!`), so the loop continues regardless. -/
def lowerCastSteps : Lvalue → List (CastOp × UnpackedType) → Outcome
  | value, [] => .ok value
  | value, (op, tgt) :: rest =>
    match op with
    | .packSBVT =>
      if tgt.isSimpleBitVector then
        match packSimpleBitVector value with
        | .ok v => lowerCastSteps v rest
        | .abort => .abort
      else .abort
    | .pickModport => lowerCastSteps (.mk tgt value.kind) rest
    | .otherOp _ => .abort

/-- Embeds `lower_cast` (lvalue.rs lines 269-338): an Error value is
returned unchanged; an error chain yields a fresh Error node; otherwise
the value's type must be identical to the chain's initial type
(`assert_type!`), the steps are applied, and the resulting type must be
identical to the chain's final type (`assert_type!`). -/
def lowerCast (value : Lvalue) (chain : CastType) : Outcome :=
  if value.isError then .ok value
  else if chain.isError then .ok errorLvalue
  else if value.ty.isIdentical chain.init then
    match lowerCastSteps value chain.casts with
    | .ok v => if v.ty.isIdentical chain.ty then .ok v else .abort
    | .abort => .abort
  else .abort


/-- Modelled from the spec: `adjust_indexing` — re-base an index offset to
be zero-relative to the target's declared outermost dimension: the
adjusted offset of index `k` into `[hi:lo]` is `k - lo` (a no-op when the
declared low bound is zero). -/
def adjustIndexing (base : Rvalue) (d : Dim) : Rvalue :=
  if d.lo = 0 then base
  else
    match base.kind with
    | .const k => { ty := base.ty, kind := .const (k - d.lo) }
    | k => { ty := base.ty, kind := .sub k d.lo }

/-- The user-facing diagnostics emitted via `cx.emit` in lvalue.rs: the
"cannot be used as the target of an assignment" error of the identifier
arm and the "cannot be assigned to" error of the catch-all arm. -/
inductive Diag where
  | cannotBeUsedAsTarget
  | cannotBeAssignedTo
deriving DecidableEq

/-- Modelled from the spec: the combined result of `resolve_node` followed
by `hir_of` on the binding, classified the way the identifier arm of
`lower_expr_inner` dispatches on it. -/
inductive Binding where
  | genvarDecl (id : Nat)
  | varDecl (id : Nat)
  | intPort (id : Nat)
  | inst (id : Nat)
  | otherNode
deriving DecidableEq

mutual

/-- One syntax node as `mir_lvalue` sees it: the outcome of `hir_of` on it
and the outcome of `cast_type` on it (`none` models `Err`, which the
source unwraps). -/
inductive ExprNode where
  | mk (hir : HirRes) (cast : Option CastType)

/-- Modelled from the spec: the outcome of `hir_of(expr_id)`: an
expression node, a successful resolution to a non-expression node
(`bug_span!` in the source), or `Err`. -/
inductive HirRes where
  | expr (k : ExprKind)
  | notExpr
  | err

/-- The expression shapes dispatched by `lower_expr_inner`, each carrying
the oracle data the source obtains from its external collaborators:
`ident` carries the resolved binding (`none` models a failing
`resolve_node`/`hir_of`); `index` carries the `(base, length)` pair of
`compute_indexing` (`none` models `Err`) and the target node; `field`
carries the target node, the target's self-determined type, the
hierarchical lookup result `(is_modport, node id)` for the interface case
(`none` models `Err`), and the resolved field ordinal for the struct case
(`none` models `Err`); `concat` carries the optional replication count
(outer `none`: no replication; inner `none`: `Err` of
`constant_int_value_of`), the self-determined type of the whole
expression, and the operand nodes in source order. -/
inductive ExprKind where
  | ident (binding : Option Binding)
  | index (idxRes : Option (Rvalue × Nat)) (target : ExprNode)
  | field (target : ExprNode) (targetTy : Option UnpackedType)
      (hierDef : Option (Bool × Nat)) (fieldIdx : Option Nat)
  | concat (rp : Option (Option Int)) (finalTy : UnpackedType)
      (elems : List ExprNode)
  | otherShape

end

/-- The `cast_type` oracle data attached to a node. -/
def ExprNode.castRes : ExprNode → Option CastType
  | .mk _ c => c

/-- Result of `lower_expr_inner`: a node, `Err(())`, or a fatal internal
fault. -/
inductive LRes where
  | ok (lv : Lvalue)
  | err
  | abort

mutual

/-- Embeds `mir_lvalue` (lvalue.rs lines 68-109): extract the HIR (an
`Err` degrades to a local Error node, a non-expression node is a
`bug_span!` fault), unwrap the cast type (a panic on `Err`), lower the
expression (converting `Err` to a local Error node), pass an Error node
through unchanged, assert the built type is identical to the chain's
initial type, and pipe through `lower_cast`.  The second component
collects the diagnostics emitted via `cx.emit` in this module. -/
def mirLvalue : ExprNode → Outcome × List Diag
  | .mk hir cast =>
    match hir with
    | .err => (.ok errorLvalue, [])
    | .notExpr => (.abort, [])
    | .expr k =>
      match cast with
      | none => (.abort, [])
      | some c =>
        match lowerExprInner k c.init with
        | (.abort, ds) => (.abort, ds)
        | (.err, ds) => (.ok errorLvalue, ds)
        | (.ok lv, ds) =>
          if lv.isError then (.ok lv, ds)
          else if lv.ty.isIdentical c.init then
            match lowerCast lv c with
            | .ok v => (.ok v, ds)
            | .abort => (.abort, ds)
          else (.abort, ds)
termination_by n => (sizeOf n, 0)

/-- Embeds `lower_expr_inner` (lvalue.rs lines 114-266), dispatching on
the expression shape with the node's initial cast type `ty`:
an error `ty` returns `Err` at once; identifiers build
`Genvar`/`Var`/`Intf`/`Port` from the resolved binding or report
"cannot be used as the target of an assignment"; an index computes the
indexing parameters, lowers the target, asserts it exposes a dimension,
re-bases the offset and builds `Index`; a field access builds
`IntfSignal` (or reuses the target kind for a modport) when the target's
self-determined type is an interface, else a `Member` with the resolved
ordinal; a concatenation lowers every operand (asserting each coalesces
to an LLHD scalar), sums their bit widths into an unsigned vector of the
overall expression's domain, builds `Concat` in source order and wraps it
in `Repeat` when a replication count is present; every other shape
reports "cannot be assigned to" and returns `Err`. -/
def lowerExprInner : ExprKind → UnpackedType → LRes × List Diag
  | k, ty =>
    if ty.isError then (.err, []) else
    match k with
    | .ident b =>
      match b with
      | none => (.err, [])
      | some (.genvarDecl i) => (.ok (.mk ty (.genvar i)), [])
      | some (.varDecl i) => (.ok (.mk ty (.var i)), [])
      | some (.intPort i) =>
        if (ty.getIntf).isSome then (.ok (.mk ty (.intf i)), [])
        else (.ok (.mk ty (.port i)), [])
      | some (.inst i) =>
        if (ty.getIntf).isSome then (.ok (.mk ty (.intf i)), [])
        else (.err, [.cannotBeUsedAsTarget])
      | some .otherNode => (.err, [.cannotBeUsedAsTarget])
    | .index idxRes target =>
      match idxRes with
      | none => (.err, [])
      | some (base, length) =>
        match mirLvalue target with
        | (.abort, ds) => (.abort, ds)
        | (.ok tlv, ds) =>
          match tlv.ty.dimsHead with
          | none => (.abort, ds)
          | some d =>
            (.ok (.mk ty (.index tlv (adjustIndexing base d) length)), ds)
    | .field target targetTy hierDef fieldIdx =>
      match mirLvalue target with
      | (.abort, ds) => (.abort, ds)
      | (.ok v, ds) =>
        match targetTy.bind UnpackedType.getIntf with
        | some _ =>
          match hierDef with
          | none => (.err, ds)
          | some (isModport, defId) =>
            if isModport then (.ok (.mk ty v.kind), ds)
            else (.ok (.mk ty (.intfSignal v defId)), ds)
        | none =>
          match fieldIdx with
          | none => (.err, ds)
          | some f => (.ok (.mk ty (.member v f)), ds)
    | .concat rp finalTy elems =>
      match lowerOperands elems with
      | (none, ds) => (.abort, ds)
      | (some pairs, ds) =>
        if finalTy.isError then (.err, ds)
        else
          let cnode : Lvalue :=
            .mk (UnpackedType.sbvToUnpacked finalTy.domain .unsigned
                  ((pairs.map Prod.fst).sum))
              (.concat (pairs.map Prod.snd))
          match rp with
          | none => (.ok cnode, ds)
          | some none => (.err, ds)
          | some (some cval) =>
            if cval < 0 then (.abort, ds)
            else (.ok (.mk finalTy (.rep cval.toNat cnode)), ds)
    | .otherShape => (.err, [.cannotBeAssignedTo])
termination_by k ty => (sizeOf k, 0)

/-- Embeds the operand loop of the concatenation arm (lvalue.rs lines
213-226): lower each operand via `mir_lvalue`, assert its type coalesces
to an LLHD scalar, take its bit width, and collect `(width, value)` pairs
in source order; `none` models a fatal fault. -/
def lowerOperands : List ExprNode → Option (List (Nat × Lvalue)) × List Diag
  | [] => (some [], [])
  | e :: rest =>
    match mirLvalue e with
    | (.abort, ds) => (none, ds)
    | (.ok v, ds) =>
      if v.ty.coalescesToLlhdScalar then
        match v.ty.bitSize with
        | some w =>
          match lowerOperands rest with
          | (some ps, ds2) => (some ((w, v) :: ps), ds ++ ds2)
          | (none, ds2) => (none, ds ++ ds2)
        | none => (none, ds)
      else (none, ds)
termination_by l => (sizeOf l, 1)

end

/-! Concrete fixtures used by witnesses and counterexamples. -/

/-- The type `logic [7:0]`. -/
def t8 : UnpackedType := .intVec .twoValued .unsigned 7 0

/-- The type `logic [3:0]`. -/
def t4 : UnpackedType := .intVec .twoValued .unsigned 3 0

/-- The type `logic [1:0]`. -/
def t2 : UnpackedType := .intVec .twoValued .unsigned 1 0

/-- The type `logic [4:1]` (declared low bound 1). -/
def t41 : UnpackedType := .intVec .twoValued .unsigned 4 1

/-- The struct type `{a : logic [3:0]; b : logic [1:0]}`. -/
def abTy : UnpackedType := .strukt [t4, t2]

/-- An identifier expression bound to a variable declaration, with the
trivial cast chain at type `ty`. -/
def varNode (i : Nat) (ty : UnpackedType) : ExprNode :=
  .mk (.expr (.ident (some (.varDecl i)))) (some ⟨ty, ty, []⟩)

/-- A node whose `hir_of` query fails (`Err`), with a trivial cast chain:
`mir_lvalue` on it returns the local Error node. -/
def errNodeT8 : ExprNode := .mk .err (some ⟨t8, t8, []⟩)

end Moore

namespace Moore

/-! Helper lemmas shared by the claim theorems. -/

/-- The distinguished error node is recognized by the error predicate. -/
theorem errorLvalue_isError : errorLvalue.isError = true := rfl

/-- If `lower_cast` terminates normally with a non-Error node, the final
`assert_type!` has enforced that the node's type is identical to the
chain's final type. -/
theorem lowerCast_ok_final (value : Lvalue) (c : CastType) (v : Lvalue)
    (h : lowerCast value c = .ok v) (hv : v.isError = false) :
    v.ty.isIdentical c.ty = true := by
  unfold lowerCast at h
  split_ifs at h with h1 h2 h3
  · cases h
    rw [h1] at hv
    cases hv
  · cases h
    cases hv
  · rcases hs : lowerCastSteps value c.casts with v' | _ <;> rw [hs] at h <;>
      dsimp only at h
    · split_ifs at h with h4
      · cases h
        exact h4
    · cases h

/-! ## C1 -/

/-- C1: for every expression node and environment for which `mir_lvalue`
returns a non-Error lvalue, the returned node's type is identical (by
identity-preserving structural equality) to the final type declared by
`cast_type(expr, env)`. -/
theorem c1_nonerror_result_has_final_cast_type
    (n : ExprNode) (lv : Lvalue) (ds : List Diag)
    (hok : mirLvalue n = (.ok lv, ds)) (hne : lv.isError = false) :
    ∃ c, n.castRes = some c ∧ lv.ty.isIdentical c.ty = true := by
  obtain ⟨hir, cast⟩ := n
  cases hir with
  | err =>
    simp [mirLvalue] at hok
    obtain ⟨h1, -⟩ := hok
    rw [← h1] at hne
    simp [errorLvalue, Lvalue.isError] at hne
  | notExpr =>
    simp [mirLvalue] at hok
  | expr k =>
    cases cast with
    | none =>
      simp [mirLvalue] at hok
    | some c =>
      refine ⟨c, rfl, ?_⟩
      rcases hq : lowerExprInner k c.init with ⟨lres, ds2⟩
      cases lres with
      | abort => simp [mirLvalue, hq] at hok
      | err =>
        simp [mirLvalue, hq] at hok
        obtain ⟨h1, -⟩ := hok
        rw [← h1] at hne
        simp [errorLvalue, Lvalue.isError] at hne
      | ok lv0 =>
        rcases hE : lv0.isError with _ | _
        · rcases hid : lv0.ty.isIdentical c.init with _ | _
          · simp [mirLvalue, hq, hE, hid] at hok
          · rcases hc : lowerCast lv0 c with v | _
            · simp [mirLvalue, hq, hE, hid, hc] at hok
              obtain ⟨h1, -⟩ := hok
              rw [← h1]
              exact lowerCast_ok_final lv0 c v hc (h1 ▸ hne)
            · simp [mirLvalue, hq, hE, hid, hc] at hok
        · simp [mirLvalue, hq, hE] at hok
          obtain ⟨h1, -⟩ := hok
          rw [← h1] at hne
          rw [hE] at hne
          cases hne

/-- Witness for C1: `x` of 8-bit vector type with the trivial cast chain
lowers to a non-Error `Var` node whose type is identical to the declared
final type. -/
theorem c1_witness :
    ∃ c, (varNode 0 t8).castRes = some c ∧
      (Lvalue.mk t8 (.var 0)).ty.isIdentical c.ty = true :=
  c1_nonerror_result_has_final_cast_type (varNode 0 t8) (.mk t8 (.var 0)) []
    (by simp [varNode, mirLvalue, lowerExprInner, lowerCast, lowerCastSteps, t8,
      UnpackedType.isError, UnpackedType.getIntf, Lvalue.isError, Lvalue.ty, Lvalue.kind,
      UnpackedType.isIdentical, CastType.isError])
    (by simp [Lvalue.isError])

/-! ## C2 -/

/-- Counterexample to C2 as stated: the claim includes `cast_type` among
the collaborators whose `Err` is converted to a local Error node, but the
source unwraps the result of `cast_type` (lvalue.rs line 91), so an `Err`
from `cast_type` panics: on a well-formed identifier expression whose
cast query fails, `mir_lvalue` aborts the process instead of returning an
Lvalue. -/
theorem c2_counterexample :
    mirLvalue (.mk (.expr (.ident (some (.varDecl 0)))) none) = (.abort, []) := by
  simp [mirLvalue]

/-- C2 (amended): `mir_lvalue` converts an `Err` from `hir_of` to a local
Error node before anything else, and converts an `Err` arising inside
expression lowering (from `resolve_node`, `compute_indexing`, the field
and hierarchical-name resolvers, or `constant_int_value_of`) to a local
Error node — but an `Err` from `cast_type` is unwrapped and aborts the
process, so the no-abort guarantee holds only when `cast_type` succeeds. -/
theorem c2_err_collaborators_degrade_to_error_node :
    (∀ cast : Option CastType, mirLvalue (.mk .err cast) = (.ok errorLvalue, [])) ∧
    (∀ (k : ExprKind) (c : CastType) (ds : List Diag),
      lowerExprInner k c.init = (.err, ds) →
      mirLvalue (.mk (.expr k) (some c)) = (.ok errorLvalue, ds)) := by
  constructor
  · intro cast
    simp [mirLvalue]
  · intro k c ds hq
    simp [mirLvalue, hq]

/-- Witness for C2 (amended): an identifier whose name resolution fails
(`resolve_node` returns `Err`) lowers to the local Error node, with no
abort and no diagnostic from this module. -/
theorem c2_witness :
    mirLvalue (.mk (.expr (.ident none)) (some ⟨t8, t8, []⟩)) = (.ok errorLvalue, []) :=
  c2_err_collaborators_degrade_to_error_node.2 (.ident none) ⟨t8, t8, []⟩ []
    (by simp [lowerExprInner, t8, UnpackedType.isError])

/-! ## Characterization of the packing loops. -/

/-- The element list built by the array-packing loop: it has one entry
per element index, and the entry at list position `j` is the packed
`Index` lvalue for element index `n - 1 - j` — the loop runs from the
highest index down to the lowest, collecting in that order. -/
theorem packElems_spec (elemTy : UnpackedType) (value : Lvalue) :
    ∀ (n : Nat) (es : List Lvalue), packElems elemTy value n = some es →
      es.length = n ∧
      ∀ j, j < n →
        es[j]? = (packTy elemTy
          (.mk elemTy (.index value ⟨int32Ty, .const ((n - 1 - j : Nat) : Int)⟩ 0))).toOption := by
  intro n
  induction n with
  | zero =>
    intro es h
    simp [packElems] at h
    subst h
    simp
  | succ m ih =>
    intro es h
    simp only [packElems] at h
    rcases hp : packTy elemTy (.mk elemTy (.index value ⟨int32Ty, .const (m : Int)⟩ 0)) with
        e | _ <;> rw [hp] at h
    · rcases hr : packElems elemTy value m with _ | rest <;> rw [hr] at h
      · simp at h
      · simp at h
        subst h
        obtain ⟨hlen, hidx⟩ := ih rest hr
        refine ⟨by simp [hlen], ?_⟩
        intro j hj
        cases j with
        | zero =>
          simp [hp, Outcome.toOption]
        | succ i =>
          simp only [List.getElem?_cons_succ]
          rw [show (m + 1 - 1 - (i + 1) : Nat) = m - 1 - i from by omega]
          exact hidx i (by omega)
    · simp at h

/-- The member list built by the struct-packing loop: it has one entry
per member, and the entry at list position `j` is the packed `Member`
lvalue for member ordinal `i + j` — declaration order is preserved. -/
theorem packFields_spec (value : Lvalue) :
    ∀ (ms : List UnpackedType) (i : Nat) (es : List Lvalue),
      packFields ms value i = some es →
      es.length = ms.length ∧
      ∀ j, j < ms.length →
        ∃ mty, ms[j]? = some mty ∧
          es[j]? = (packTy mty (.mk mty (.member value (i + j)))).toOption := by
  intro ms
  induction ms with
  | nil =>
    intro i es h
    simp [packFields] at h
    subst h
    simp
  | cons m rest ih =>
    intro i es h
    simp only [packFields] at h
    rcases hp : packTy m (.mk m (.member value i)) with e | _ <;> rw [hp] at h
    · rcases hr : packFields rest value (i + 1) with _ | es' <;> rw [hr] at h
      · simp at h
      · simp at h
        subst h
        obtain ⟨hlen, hidx⟩ := ih (i + 1) es' hr
        refine ⟨by simp [hlen], ?_⟩
        intro j hj
        cases j with
        | zero =>
          exact ⟨m, by simp, by simp [hp, Outcome.toOption]⟩
        | succ jj =>
          obtain ⟨mty, h1, h2⟩ := hidx jj (by simpa using hj)
          refine ⟨mty, by simpa using h1, ?_⟩
          simp only [List.getElem?_cons_succ]
          rw [show i + (jj + 1) = (i + 1) + jj from by omega]
          exact h2
    · simp at h

/-! ## C3 -/

/-- C3: on the general array path, `pack_simple_bit_vector` builds one
`Index` lvalue per element and concatenates them so that element 0 is
least-significant (last in the `Concat` operand list) and the highest
index is most-significant (first), iterating element construction from
the highest index down to the lowest. -/
theorem c3_pack_array_element_order
    (hi lo : Int) (elemTy : UnpackedType) (value : Lvalue) (sbvTy : UnpackedType)
    (es : List Lvalue)
    (hne : value.isError = false)
    (hty : value.ty = .arr hi lo elemTy)
    (hgen : elemTy.isTrivialFlat = false)
    (hsbv : UnpackedType.sbvtOf (.arr hi lo elemTy) = some sbvTy)
    (hes : packElems elemTy value ((hi - lo).natAbs + 1) = some es) :
    packSimpleBitVector value = .ok (.mk sbvTy (.concat es)) ∧
    es.length = (hi - lo).natAbs + 1 ∧
    (∀ j, j < (hi - lo).natAbs + 1 →
      es[j]? = (packTy elemTy (.mk elemTy (.index value
        ⟨int32Ty, .const (((hi - lo).natAbs + 1 - 1 - j : Nat) : Int)⟩ 0))).toOption) ∧
    es.head? = (packTy elemTy (.mk elemTy (.index value
        ⟨int32Ty, .const (((hi - lo).natAbs : Nat) : Int)⟩ 0))).toOption ∧
    es.getLast? = (packTy elemTy (.mk elemTy (.index value
        ⟨int32Ty, .const 0⟩ 0))).toOption := by
  obtain ⟨hlen, hidx⟩ := packElems_spec elemTy value ((hi - lo).natAbs + 1) es hes
  refine ⟨?_, hlen, hidx, ?_, ?_⟩
  · rw [packSimpleBitVector, hty]
    simp only [packTy]
    rw [hsbv]
    simp [hne, UnpackedType.coalescesToLlhdScalar, hgen, hes]
  · rw [List.head?_eq_getElem?]
    have h0 := hidx 0 (by omega)
    rw [h0]
    norm_num
  · rw [List.getLast?_eq_getElem?, hlen]
    have hl := hidx ((hi - lo).natAbs + 1 - 1) (by omega)
    rw [show (hi - lo).natAbs + 1 - 1 = (hi - lo).natAbs from by omega] at hl ⊢
    rw [hl]
    norm_num

/-- Witness for C3: packing a two-element array of `logic [3:0]` yields a
`Concat` whose first operand selects element index 1 and whose last
operand selects element index 0. -/
theorem c3_witness :
    packSimpleBitVector (.mk (.arr 1 0 t4) (.var 0)) =
      .ok (.mk t8 (.concat
        [.mk t4 (.transmute (.mk t4
          (.index (.mk (.arr 1 0 t4) (.var 0)) ⟨int32Ty, .const 1⟩ 0))),
         .mk t4 (.transmute (.mk t4
          (.index (.mk (.arr 1 0 t4) (.var 0)) ⟨int32Ty, .const 0⟩ 0)))])) := by
  have h := c3_pack_array_element_order 1 0 t4 (.mk (.arr 1 0 t4) (.var 0)) t8
    [.mk t4 (.transmute (.mk t4
      (.index (.mk (.arr 1 0 t4) (.var 0)) ⟨int32Ty, .const 1⟩ 0))),
     .mk t4 (.transmute (.mk t4
      (.index (.mk (.arr 1 0 t4) (.var 0)) ⟨int32Ty, .const 0⟩ 0)))]
    (by simp [Lvalue.isError])
    (by simp [Lvalue.ty])
    (by simp [t4, UnpackedType.isTrivialFlat])
    (by simp [UnpackedType.sbvtOf, UnpackedType.bitSize, t4, t8, UnpackedType.domain,
      UnpackedType.signOf, UnpackedType.sbvToUnpacked]
        try norm_num)
    (by norm_num
        try simp [packElems, packTy, t4, Lvalue.isError, Lvalue.ty, UnpackedType.sbvtOf,
          UnpackedType.bitSize, UnpackedType.domain, UnpackedType.signOf,
          UnpackedType.sbvToUnpacked, UnpackedType.coalescesToLlhdScalar])
  exact h.1

/-! ## C4 -/

/-- C4: when `pack_simple_bit_vector` packs a struct, it builds a
`Member` lvalue for each member in declaration order, packs each
recursively, and concatenates them in declaration order with the
first-declared member first in the `Concat` operand list
(most-significant). -/
theorem c4_pack_struct_declaration_order
    (ms : List UnpackedType) (value : Lvalue) (sbvTy : UnpackedType) (es : List Lvalue)
    (hne : value.isError = false)
    (hty : value.ty = .strukt ms)
    (hsbv : UnpackedType.sbvtOf (.strukt ms) = some sbvTy)
    (hes : packFields ms value 0 = some es) :
    packSimpleBitVector value = .ok (.mk sbvTy (.concat es)) ∧
    es.length = ms.length ∧
    (∀ j, j < ms.length → ∃ mty, ms[j]? = some mty ∧
      es[j]? = (packTy mty (.mk mty (.member value j))).toOption) ∧
    (∀ m0 rest, ms = m0 :: rest →
      es.head? = (packTy m0 (.mk m0 (.member value 0))).toOption) := by
  obtain ⟨hlen, hidx⟩ := packFields_spec value ms 0 es hes
  refine ⟨?_, hlen, ?_, ?_⟩
  · rw [packSimpleBitVector, hty]
    simp only [packTy]
    rw [hsbv]
    simp [hne, UnpackedType.coalescesToLlhdScalar, hes]
  · intro j hj
    obtain ⟨mty, h1, h2⟩ := hidx j hj
    exact ⟨mty, h1, by simpa using h2⟩
  · intro m0 rest hcons
    subst hcons
    rw [List.head?_eq_getElem?]
    obtain ⟨mty, h1, h2⟩ := hidx 0 (by simp)
    simp only [List.getElem?_cons_zero, Option.some.injEq] at h1
    subst h1
    simpa using h2

/-- Witness for C4: packing the struct `{a : logic [3:0]; b : logic [1:0]}`
yields `Concat [pack a, pack b]` with the first-declared member first. -/
theorem c4_witness :
    packSimpleBitVector (.mk abTy (.var 0)) =
      .ok (.mk (.intVec .twoValued .unsigned 5 0) (.concat
        [.mk t4 (.transmute (.mk t4 (.member (.mk abTy (.var 0)) 0))),
         .mk t2 (.transmute (.mk t2 (.member (.mk abTy (.var 0)) 1)))])) ∧
    ([.mk t4 (.transmute (.mk t4 (.member (.mk abTy (.var 0)) 0))),
      .mk t2 (.transmute (.mk t2 (.member (.mk abTy (.var 0)) 1)))] : List Lvalue).head? =
      (packTy t4 (.mk t4 (.member (.mk abTy (.var 0)) 0))).toOption := by
  have h := c4_pack_struct_declaration_order [t4, t2] (.mk abTy (.var 0))
    (.intVec .twoValued .unsigned 5 0)
    [.mk t4 (.transmute (.mk t4 (.member (.mk abTy (.var 0)) 0))),
     .mk t2 (.transmute (.mk t2 (.member (.mk abTy (.var 0)) 1)))]
    (by simp [Lvalue.isError])
    (by simp [Lvalue.ty, abTy])
    (by simp [UnpackedType.sbvtOf, UnpackedType.bitSize, UnpackedType.bitSizeList, t4, t2,
      UnpackedType.domain, UnpackedType.domainList, UnpackedType.signOf,
      UnpackedType.sbvToUnpacked]
        try norm_num)
    (by try simp [packFields, packTy, t4, t2, Lvalue.isError, Lvalue.ty, UnpackedType.sbvtOf,
          UnpackedType.bitSize, UnpackedType.domain, UnpackedType.signOf,
          UnpackedType.sbvToUnpacked, UnpackedType.coalescesToLlhdScalar])
  exact ⟨h.1, h.2.2.2 t4 [t2] rfl⟩

/-! ## C5 -/

/-- The simple-bit-vector type of width `w` has bit size `w`. -/
theorem bitSize_sbvToUnpacked (dom : Domain) (sign : Sign) (w : Nat) (hw : 1 ≤ w) :
    (UnpackedType.sbvToUnpacked dom sign w).bitSize = some w := by
  simp [UnpackedType.sbvToUnpacked, UnpackedType.bitSize]
  omega

/-- Counterexample to C5 as stated: packing the struct
`{a : logic [3:0]; b : logic [1:0]}` places the packed first-declared
member `a` first in the `Concat` operand list — the most-significant
position, since `Concat` operands are ordered most-significant first —
and the last (least-significant) operand is the packed `b`, distinct from
the packed `a`; the first-declared member is therefore not
least-significant. -/
theorem c5_counterexample :
    packSimpleBitVector (.mk abTy (.var 0)) =
      .ok (.mk (.intVec .twoValued .unsigned 5 0) (.concat
        [.mk t4 (.transmute (.mk t4 (.member (.mk abTy (.var 0)) 0))),
         .mk t2 (.transmute (.mk t2 (.member (.mk abTy (.var 0)) 1)))])) ∧
    ([.mk t4 (.transmute (.mk t4 (.member (.mk abTy (.var 0)) 0))),
      .mk t2 (.transmute (.mk t2 (.member (.mk abTy (.var 0)) 1)))] : List Lvalue).getLast? =
      some (.mk t2 (.transmute (.mk t2 (.member (.mk abTy (.var 0)) 1)))) ∧
    (Lvalue.mk t4 (.transmute (.mk t4 (.member (.mk abTy (.var 0)) 0))) ≠
      Lvalue.mk t2 (.transmute (.mk t2 (.member (.mk abTy (.var 0)) 1)))) := by
  refine ⟨?_, by simp, ?_⟩
  · simp [packSimpleBitVector, packTy, packFields, abTy, t4, t2, Lvalue.isError, Lvalue.ty,
      UnpackedType.sbvtOf, UnpackedType.bitSize, UnpackedType.bitSizeList, UnpackedType.domain,
      UnpackedType.domainList, UnpackedType.signOf, UnpackedType.sbvToUnpacked,
      UnpackedType.coalescesToLlhdScalar, UnpackedType.isTrivialFlat]
  · intro h
    rw [Lvalue.mk.injEq] at h
    simp [t4, t2, UnpackedType.intVec.injEq] at h

/-- C5 (amended): for every packable value, `pack_simple_bit_vector`
yields a result whose width equals the value's total declared bit width;
the lowest array index is least-significant (last in the `Concat` list)
and the first-declared struct member is most-significant (first in the
`Concat` list). -/
theorem c5_pack_width_and_significance :
    (∀ (value : Lvalue) (w : Nat) (out : Lvalue),
      value.isError = false → value.ty.bitSize = some w → 1 ≤ w →
      packSimpleBitVector value = .ok out → out.ty.bitSize = some w) ∧
    (∀ (value : Lvalue) (m0 : UnpackedType) (rest : List UnpackedType) (es : List Lvalue),
      packFields (m0 :: rest) value 0 = some es →
      es.head? = (packTy m0 (.mk m0 (.member value 0))).toOption) ∧
    (∀ (elemTy : UnpackedType) (value : Lvalue) (n : Nat) (es : List Lvalue),
      packElems elemTy value (n + 1) = some es →
      es.getLast? = (packTy elemTy (.mk elemTy
        (.index value ⟨int32Ty, .const 0⟩ 0))).toOption) := by
  refine ⟨?_, ?_, ?_⟩
  · intro value w out hne hw hw1 hok
    obtain ⟨vty, vkind⟩ := value
    rw [packSimpleBitVector] at hok
    simp only [Lvalue.ty] at hok hw
    have hsbv : UnpackedType.sbvtOf vty =
        some (UnpackedType.sbvToUnpacked vty.domain vty.signOf w) := by
      simp [UnpackedType.sbvtOf, hw]
    cases vty with
    | error =>
      simp [UnpackedType.bitSize] at hw
    | logicTy d sg =>
      simp only [packTy] at hok
      rw [hsbv] at hok
      simp [hne, UnpackedType.coalescesToLlhdScalar] at hok
      exact hok ▸ bitSize_sbvToUnpacked _ _ w hw1
    | intVec d sg hi lo =>
      simp only [packTy] at hok
      rw [hsbv] at hok
      simp [hne, UnpackedType.coalescesToLlhdScalar] at hok
      exact hok ▸ bitSize_sbvToUnpacked _ _ w hw1
    | arr hi lo elemTy =>
      simp only [packTy] at hok
      rw [hsbv] at hok
      simp only [hne, UnpackedType.coalescesToLlhdScalar] at hok
      rcases hf : elemTy.isTrivialFlat with _ | _ <;> rw [hf] at hok <;>
        simp only [Bool.false_eq_true, if_false, if_true, reduceIte] at hok
      · rcases hp : packElems elemTy (.mk (.arr hi lo elemTy) vkind)
            ((hi - lo).natAbs + 1) with _ | es <;> rw [hp] at hok <;>
          dsimp only at hok
        · cases hok
        · cases hok
          exact bitSize_sbvToUnpacked _ _ w hw1
      · cases hok
        exact bitSize_sbvToUnpacked _ _ w hw1
    | strukt ms =>
      simp only [packTy] at hok
      rw [hsbv] at hok
      simp only [hne, UnpackedType.coalescesToLlhdScalar] at hok
      rcases hp : packFields ms (.mk (.strukt ms) vkind) 0 with _ | es <;>
        rw [hp] at hok <;> dsimp only at hok
      · cases hok
      · cases hok
        exact bitSize_sbvToUnpacked _ _ w hw1
    | intf i =>
      simp [UnpackedType.bitSize] at hw
  · intro value m0 rest es h
    obtain ⟨hlen, hidx⟩ := packFields_spec value (m0 :: rest) 0 es h
    rw [List.head?_eq_getElem?]
    obtain ⟨mty, h1, h2⟩ := hidx 0 (by simp)
    simp only [List.getElem?_cons_zero, Option.some.injEq] at h1
    subst h1
    simpa using h2
  · intro elemTy value n es h
    obtain ⟨hlen, hidx⟩ := packElems_spec elemTy value (n + 1) es h
    rw [List.getLast?_eq_getElem?, hlen]
    have hl := hidx n (by omega)
    rw [show n + 1 - 1 - n = 0 from by omega] at hl
    rw [show n + 1 - 1 = n from by omega]
    simpa using hl

/-- Witness for C5 (amended): the packed struct
`{a : logic [3:0]; b : logic [1:0]}` (total width 6) has bit size 6. -/
theorem c5_witness :
    (Lvalue.mk (UnpackedType.intVec .twoValued .unsigned 5 0) (.concat
      [.mk t4 (.transmute (.mk t4 (.member (.mk abTy (.var 0)) 0))),
       .mk t2 (.transmute (.mk t2 (.member (.mk abTy (.var 0)) 1)))])).ty.bitSize =
      some 6 :=
  c5_pack_width_and_significance.1 (.mk abTy (.var 0)) 6
    (.mk (UnpackedType.intVec .twoValued .unsigned 5 0) (.concat
      [.mk t4 (.transmute (.mk t4 (.member (.mk abTy (.var 0)) 0))),
       .mk t2 (.transmute (.mk t2 (.member (.mk abTy (.var 0)) 1)))]))
    (by simp [Lvalue.isError])
    (by simp [Lvalue.ty, abTy, t4, t2, UnpackedType.bitSize, UnpackedType.bitSizeList]
        try norm_num)
    (by norm_num)
    (by try simp [packSimpleBitVector, packTy, packFields, abTy, t4, t2, Lvalue.isError,
          Lvalue.ty, UnpackedType.sbvtOf, UnpackedType.bitSize, UnpackedType.bitSizeList,
          UnpackedType.domain, UnpackedType.domainList, UnpackedType.signOf,
          UnpackedType.sbvToUnpacked, UnpackedType.coalescesToLlhdScalar,
          UnpackedType.isTrivialFlat])

/-! ## C6 -/

/-- Counterexample to C6 as stated: the Member construction does not
inspect its operand for error-ness.  A field access whose target lowers
to the Error node (here: the target's `hir_of` fails) but whose own cast
type is intact produces a non-Error `Member` node embedding the Error
operand — not an Error node for the whole construct.  (No additional
diagnostic is emitted, consistent with that part of the claim.) -/
theorem c6_counterexample :
    mirLvalue (.mk (.expr (.field errNodeT8 none none (some 0))) (some ⟨t8, t8, []⟩)) =
      (.ok (.mk t8 (.member errorLvalue 0)), []) ∧
    (Lvalue.mk t8 (.member errorLvalue 0)).isError = false ∧
    errorLvalue.isError = true := by
  refine ⟨?_, rfl, rfl⟩
  simp [mirLvalue, lowerExprInner, lowerCast, lowerCastSteps, errNodeT8, t8,
    UnpackedType.isError, Lvalue.isError, Lvalue.ty, Lvalue.kind, errorLvalue,
    UnpackedType.isIdentical, CastType.isError, UnpackedType.getIntf]

/-- C6 (amended): Error is absorbing through the cast pipeline — an Error
value passes through `lower_cast` unchanged, an error cast chain yields a
fresh Error node, an Error value passes through packing unchanged, and an
expression whose own initial cast type is the error type (the situation
created by an upstream resolution error) lowers to `Err` (hence a local
Error node) immediately — in every case with no additional diagnostic.
The Index/Member/Concat arms themselves perform no operand error check,
and none of them yields an Error node for the whole construct: a Member
construction embeds an operand that lowered to Error in a non-Error
node; a Concat operand that lowered to Error (whose error type does not
coalesce to an LLHD scalar) trips the coalescing assertion and fatally
aborts; an Index whose target lowered to Error (whose error type exposes
no dimension) trips the dimension assertion and fatally aborts. -/
theorem c6_error_absorbing_cast_and_pack :
    (∀ (v : Lvalue) (c : CastType), v.isError = true → lowerCast v c = .ok v) ∧
    (∀ (v : Lvalue) (c : CastType), v.isError = false → c.isError = true →
      lowerCast v c = .ok errorLvalue) ∧
    (∀ v : Lvalue, v.isError = true → packSimpleBitVector v = .ok v) ∧
    (∀ (k : ExprKind) (ty : UnpackedType), ty.isError = true →
      lowerExprInner k ty = (.err, [])) ∧
    (∀ (ty : UnpackedType) (target : ExprNode) (ds : List Diag) (v : Lvalue) (f : Nat),
      ty.isError = false → mirLvalue target = (.ok v, ds) →
      lowerExprInner (.field target none none (some f)) ty =
        (.ok (.mk ty (.member v f)), ds)) ∧
    (∀ (rp : Option (Option Int)) (finalTy ty : UnpackedType) (e : ExprNode)
        (rest : List ExprNode) (v : Lvalue) (ds1 : List Diag),
      ty.isError = false → mirLvalue e = (.ok v, ds1) →
      v.ty.coalescesToLlhdScalar = false →
      lowerExprInner (.concat rp finalTy (e :: rest)) ty = (.abort, ds1)) ∧
    (∀ (ty : UnpackedType) (base : Rvalue) (length : Nat) (target : ExprNode)
        (ds : List Diag) (tlv : Lvalue),
      ty.isError = false → mirLvalue target = (.ok tlv, ds) →
      tlv.ty.dimsHead = none →
      lowerExprInner (.index (some (base, length)) target) ty = (.abort, ds)) ∧
    errorLvalue.ty.coalescesToLlhdScalar = false ∧
    errorLvalue.ty.dimsHead = none := by
  refine ⟨?_, ?_, ?_, ?_, ?_, ?_, ?_, rfl, rfl⟩
  · intro v c hv
    simp [lowerCast, hv]
  · intro v c hv hc
    simp [lowerCast, hv, hc]
  · intro v hv
    simp [packSimpleBitVector, packTy, hv]
  · intro k ty hty
    unfold lowerExprInner
    simp [hty]
  · intro ty target ds v f hty htgt
    unfold lowerExprInner
    rw [hty]
    simp only [Bool.false_eq_true, if_false]
    rw [htgt]
    simp
  · intro rp finalTy ty e rest v ds1 hty hmir hcoal
    have hops : lowerOperands (e :: rest) = (none, ds1) := by
      unfold lowerOperands
      rw [hmir]
      dsimp only
      rw [hcoal]
      simp only [Bool.false_eq_true, if_false]
    unfold lowerExprInner
    rw [hty]
    simp only [Bool.false_eq_true, if_false]
    rw [hops]
  · intro ty base length target ds tlv hty htgt hdim
    unfold lowerExprInner
    rw [hty]
    simp only [Bool.false_eq_true, if_false]
    rw [htgt]
    dsimp only
    rw [hdim]

/-- Witness for C6 (amended): the Error node passes through a nontrivial
cast chain unchanged; an expression with error initial type lowers to
`Err` without diagnostics; a field access on a target that lowered to
Error builds a non-Error `Member` node embedding it; and a concatenation
whose operand lowered to Error fatally aborts at the coalescing
assertion. -/
theorem c6_witness :
    lowerCast errorLvalue ⟨t8, t8, [(.packSBVT, t8)]⟩ = .ok errorLvalue ∧
    lowerExprInner .otherShape .error = (.err, []) ∧
    lowerExprInner (.field errNodeT8 none none (some 0)) t8 =
      (.ok (.mk t8 (.member errorLvalue 0)), []) ∧
    lowerExprInner (.concat none t8 [errNodeT8]) t8 = (.abort, []) :=
  ⟨c6_error_absorbing_cast_and_pack.1 errorLvalue ⟨t8, t8, [(.packSBVT, t8)]⟩ rfl,
   c6_error_absorbing_cast_and_pack.2.2.2.1 .otherShape .error rfl,
   c6_error_absorbing_cast_and_pack.2.2.2.2.1 t8 errNodeT8 [] errorLvalue 0
     (by simp [t8, UnpackedType.isError])
     (by simp [errNodeT8, mirLvalue]),
   c6_error_absorbing_cast_and_pack.2.2.2.2.2.1 none t8 t8 errNodeT8 [] errorLvalue []
     (by simp [t8, UnpackedType.isError])
     (by simp [errNodeT8, mirLvalue])
     rfl⟩

/-! ## C7 -/

/-- Counterexample to C7 as stated: in `lower_cast`, a mismatch between
the running value's type and a step's declared target type is only
logged (`error!`, lvalue.rs lines 319-324), not a fatal assertion.  Here
a `PackSBVT` step declares target width 5 while packing the 6-bit struct
`{a : logic [3:0]; b : logic [1:0]}` produces a 6-bit value; execution
continues past the mismatching step and `lower_cast` returns normally
(the chain's final type matches the actual 6-bit result, so even the
final assertion passes). -/
theorem c7_counterexample :
    lowerCast (.mk abTy (.var 0))
      ⟨abTy, .intVec .twoValued .unsigned 5 0,
        [(.packSBVT, .intVec .twoValued .unsigned 4 0)]⟩ =
      .ok (.mk (.intVec .twoValued .unsigned 5 0) (.concat
        [.mk t4 (.transmute (.mk t4 (.member (.mk abTy (.var 0)) 0))),
         .mk t2 (.transmute (.mk t2 (.member (.mk abTy (.var 0)) 1)))])) ∧
    (UnpackedType.intVec .twoValued .unsigned 5 0).isIdentical
      (.intVec .twoValued .unsigned 4 0) = false := by
  constructor
  · simp [lowerCast, lowerCastSteps, packSimpleBitVector, packTy, packFields, abTy, t4, t2,
      Lvalue.isError, Lvalue.ty, CastType.isError, UnpackedType.isError,
      UnpackedType.isIdentical, UnpackedType.isIdenticalList, UnpackedType.isSimpleBitVector,
      UnpackedType.sbvtOf, UnpackedType.bitSize, UnpackedType.bitSizeList, UnpackedType.domain,
      UnpackedType.domainList, UnpackedType.signOf, UnpackedType.sbvToUnpacked,
      UnpackedType.coalescesToLlhdScalar, UnpackedType.isTrivialFlat]
  · simp [UnpackedType.isIdentical]

/-- C7 (amended): after a `PackSBVT` step the loop continues with the
packed value regardless of whether its type matches the step's declared
target (the mismatch is only logged); the fatal `assert_type!` applies
only after the full chain, so a normal non-Error return is guaranteed to
carry the chain's declared final type. -/
theorem c7_step_mismatch_only_logged :
    (∀ (value : Lvalue) (tgt : UnpackedType) (rest : List (CastOp × UnpackedType))
        (v1 : Lvalue),
      tgt.isSimpleBitVector = true → packSimpleBitVector value = .ok v1 →
      lowerCastSteps value ((.packSBVT, tgt) :: rest) = lowerCastSteps v1 rest) ∧
    (∀ (value : Lvalue) (c : CastType) (v : Lvalue),
      value.isError = false → c.isError = false → lowerCast value c = .ok v →
      v.ty.isIdentical c.ty = true) := by
  constructor
  · intro value tgt rest v1 hs hp
    simp [lowerCastSteps, hs, hp]
  · intro value c v hv hc hok
    unfold lowerCast at hok
    rw [hv, hc] at hok
    simp only [Bool.false_eq_true, if_false] at hok
    rcases h1 : value.ty.isIdentical c.init with _ | _ <;> rw [h1] at hok <;>
      simp only [Bool.false_eq_true, if_false, reduceIte] at hok
    · cases hok
    · rcases hs : lowerCastSteps value c.casts with v1 | _ <;> rw [hs] at hok <;>
        dsimp only at hok
      · rcases h2 : v1.ty.isIdentical c.ty with _ | _ <;> rw [h2] at hok <;>
          simp only [Bool.false_eq_true, if_false, reduceIte] at hok
        · cases hok
        · cases hok
          exact h2
      · cases hok

/-- Witness for C7 (amended): the mismatching `PackSBVT` step of the
counterexample chain continues into the (empty) remainder of the chain
with the packed value. -/
theorem c7_witness :
    lowerCastSteps (.mk abTy (.var 0))
        [(.packSBVT, .intVec .twoValued .unsigned 4 0)] =
      lowerCastSteps
        (.mk (.intVec .twoValued .unsigned 5 0) (.concat
          [.mk t4 (.transmute (.mk t4 (.member (.mk abTy (.var 0)) 0))),
           .mk t2 (.transmute (.mk t2 (.member (.mk abTy (.var 0)) 1)))])) [] :=
  c7_step_mismatch_only_logged.1 (.mk abTy (.var 0))
    (.intVec .twoValued .unsigned 4 0) []
    (.mk (.intVec .twoValued .unsigned 5 0) (.concat
      [.mk t4 (.transmute (.mk t4 (.member (.mk abTy (.var 0)) 0))),
       .mk t2 (.transmute (.mk t2 (.member (.mk abTy (.var 0)) 1)))]))
    (by simp [UnpackedType.isSimpleBitVector])
    (by try simp [packSimpleBitVector, packTy, packFields, abTy, t4, t2, Lvalue.isError,
          Lvalue.ty, UnpackedType.sbvtOf, UnpackedType.bitSize, UnpackedType.bitSizeList,
          UnpackedType.domain, UnpackedType.domainList, UnpackedType.signOf,
          UnpackedType.sbvToUnpacked, UnpackedType.coalescesToLlhdScalar,
          UnpackedType.isTrivialFlat])

/-! ## C8 -/

/-- C8: lowering an index expression whose target's outermost dimension
is declared `[hi:lo]`, with a constant computed base offset `k`, yields
an `Index` node whose base offset has been re-based to `k - lo`
(zero-relative to the declared low bound). -/
theorem c8_index_rebases_offset
    (ty : UnpackedType) (k : Int) (len : Nat) (rvTy : UnpackedType)
    (target : ExprNode) (tlv : Lvalue) (ds : List Diag) (hi lo : Int)
    (hne : ty.isError = false)
    (htgt : mirLvalue target = (.ok tlv, ds))
    (hdim : tlv.ty.dimsHead = some ⟨hi, lo⟩) :
    lowerExprInner (.index (some ({ ty := rvTy, kind := .const k }, len)) target) ty =
      (.ok (.mk ty (.index tlv { ty := rvTy, kind := .const (k - lo) } len)), ds) := by
  have hadj : adjustIndexing { ty := rvTy, kind := .const k } ⟨hi, lo⟩ =
      { ty := rvTy, kind := .const (k - lo) } := by
    unfold adjustIndexing
    by_cases h0 : lo = 0
    · simp [h0]
    · simp [h0]
  unfold lowerExprInner
  rw [hne]
  simp only [Bool.false_eq_true, if_false]
  rw [htgt]
  dsimp only
  rw [hdim]
  dsimp only
  rw [hadj]

/-- Witness for C8 (spec scenario C): part-select `x[2:1]` of
`x : logic [4:1]` — computed base offset 1, length 2 — yields an `Index`
node with re-based offset 0 and length 2. -/
theorem c8_witness :
    lowerExprInner (.index (some ({ ty := int32Ty, kind := .const 1 }, 2)) (varNode 1 t41))
        t2 =
      (.ok (.mk t2 (.index (.mk t41 (.var 1))
        { ty := int32Ty, kind := .const 0 } 2)), []) := by
  have h := c8_index_rebases_offset t2 1 2 int32Ty (varNode 1 t41) (.mk t41 (.var 1)) [] 4 1
    (by simp [t2, UnpackedType.isError])
    (by simp [varNode, mirLvalue, lowerExprInner, lowerCast, lowerCastSteps, t41,
      UnpackedType.isError, UnpackedType.getIntf, Lvalue.isError, Lvalue.ty, Lvalue.kind,
      UnpackedType.isIdentical, CastType.isError])
    (by simp [Lvalue.ty, t41, UnpackedType.dimsHead])
  simpa using h

/-! ## C9 -/

/-- C9: lowering a concatenation builds a `Concat` node whose declared
type is the unsigned simple bit vector of width equal to the sum of the
operands' bit widths, with domain taken from the overall expression's
self-determined type, and whose operands appear in source order (first
operand first, i.e. most-significant); when a replication count is
present the `Concat` is wrapped in `Repeat` with the compile-time
constant count. -/
theorem c9_concat_lowering :
    (∀ (finalTy : UnpackedType) (elems : List ExprNode) (ty : UnpackedType)
        (pairs : List (Nat × Lvalue)) (ds : List Diag),
      ty.isError = false → finalTy.isError = false →
      lowerOperands elems = (some pairs, ds) →
      lowerExprInner (.concat none finalTy elems) ty =
        (.ok (.mk (UnpackedType.sbvToUnpacked finalTy.domain .unsigned
          ((pairs.map Prod.fst).sum)) (.concat (pairs.map Prod.snd))), ds)) ∧
    (∀ (finalTy : UnpackedType) (elems : List ExprNode) (ty : UnpackedType)
        (pairs : List (Nat × Lvalue)) (ds : List Diag) (cnt : Int),
      ty.isError = false → finalTy.isError = false → 0 ≤ cnt →
      lowerOperands elems = (some pairs, ds) →
      lowerExprInner (.concat (some (some cnt)) finalTy elems) ty =
        (.ok (.mk finalTy (.rep cnt.toNat
          (.mk (UnpackedType.sbvToUnpacked finalTy.domain .unsigned
            ((pairs.map Prod.fst).sum)) (.concat (pairs.map Prod.snd))))), ds)) ∧
    (∀ (e : ExprNode) (rest : List ExprNode) (v : Lvalue) (ds1 : List Diag)
        (w : Nat) (ps : List (Nat × Lvalue)) (ds2 : List Diag),
      mirLvalue e = (.ok v, ds1) → v.ty.coalescesToLlhdScalar = true →
      v.ty.bitSize = some w → lowerOperands rest = (some ps, ds2) →
      lowerOperands (e :: rest) = (some ((w, v) :: ps), ds1 ++ ds2)) ∧
    (∀ (dom : Domain) (sg : Sign) (w : Nat), 1 ≤ w →
      (UnpackedType.sbvToUnpacked dom sg w).bitSize = some w) := by
  refine ⟨?_, ?_, ?_, fun dom sg w hw => bitSize_sbvToUnpacked dom sg w hw⟩
  · intro finalTy elems ty pairs ds hty hfin hops
    unfold lowerExprInner
    rw [hty]
    simp only [Bool.false_eq_true, if_false]
    rw [hops]
    dsimp only
    rw [hfin]
    simp only [Bool.false_eq_true, if_false]
  · intro finalTy elems ty pairs ds cnt hty hfin hcnt hops
    unfold lowerExprInner
    rw [hty]
    simp only [Bool.false_eq_true, if_false]
    rw [hops]
    dsimp only
    rw [hfin]
    simp only [Bool.false_eq_true, if_false]
    rw [if_neg (by omega)]
  · intro e rest v ds1 w ps ds2 hmir hcoal hw hrest
    unfold lowerOperands
    rw [hmir]
    dsimp only
    rw [hcoal]
    simp only [reduceIte]
    rw [hw]
    dsimp only
    rw [hrest]

/-- Witness for C9 (spec scenario D): `{a, b}` with `a : logic [3:0]` and
`b : logic [1:0]` lowers to a 6-bit unsigned two-valued `Concat` with `a`
first (most-significant). -/
theorem c9_witness :
    lowerExprInner
        (.concat none (.intVec .twoValued .unsigned 5 0) [varNode 0 t4, varNode 1 t2])
        (.intVec .twoValued .unsigned 5 0) =
      (.ok (.mk (UnpackedType.sbvToUnpacked
          (UnpackedType.intVec .twoValued .unsigned 5 0).domain .unsigned
          (([(4, Lvalue.mk t4 (.var 0)), (2, Lvalue.mk t2 (.var 1))].map Prod.fst).sum))
        (.concat ([(4, Lvalue.mk t4 (.var 0)), (2, Lvalue.mk t2 (.var 1))].map Prod.snd))),
       []) :=
  c9_concat_lowering.1 (.intVec .twoValued .unsigned 5 0) [varNode 0 t4, varNode 1 t2]
    (.intVec .twoValued .unsigned 5 0) [(4, .mk t4 (.var 0)), (2, .mk t2 (.var 1))] []
    (by simp [UnpackedType.isError])
    (by simp [UnpackedType.isError])
    (by try simp [lowerOperands, varNode, mirLvalue, lowerExprInner, lowerCast,
          lowerCastSteps, t4, t2, UnpackedType.isError, UnpackedType.getIntf, Lvalue.isError,
          Lvalue.ty, Lvalue.kind, UnpackedType.isIdentical, CastType.isError,
          UnpackedType.coalescesToLlhdScalar, UnpackedType.bitSize])

/-! ## C10 -/

/-- C10: every `Index` lvalue created internally by array packing carries
length 0 (the single-element select encoding) and a base rvalue that is a
32-bit two-valued unsigned constant holding the element index — unlike
`Index` nodes lowered from user-written selects, which carry the length
computed by the indexing normalizer (1 for a bit-select). -/
theorem c10_internal_index_encoding :
    (∀ (elemTy : UnpackedType) (value : Lvalue) (n : Nat) (es : List Lvalue) (j : Nat),
      packElems elemTy value n = some es → j < n →
      es[j]? = (packTy elemTy (.mk elemTy (.index value
        ⟨int32Ty, .const ((n - 1 - j : Nat) : Int)⟩ 0))).toOption) ∧
    int32Ty = .intVec .twoValued .unsigned 31 0 ∧
    (∀ (ty : UnpackedType) (rv : Rvalue) (target : ExprNode) (tlv : Lvalue)
        (ds : List Diag) (d : Dim),
      ty.isError = false → mirLvalue target = (.ok tlv, ds) →
      tlv.ty.dimsHead = some d →
      lowerExprInner (.index (some (rv, 1)) target) ty =
        (.ok (.mk ty (.index tlv (adjustIndexing rv d) 1)), ds)) := by
  refine ⟨?_, ?_, ?_⟩
  · intro elemTy value n es j hes hj
    exact (packElems_spec elemTy value n es hes).2 j hj
  · simp [int32Ty, UnpackedType.sbvToUnpacked]
  · intro ty rv target tlv ds d hne htgt hdim
    unfold lowerExprInner
    rw [hne]
    simp only [Bool.false_eq_true, if_false]
    rw [htgt]
    dsimp only
    rw [hdim]

/-- Witness for C10: in the packed two-element array of `logic [3:0]`,
the first collected element is the packed `Index` of element index 1 with
length 0 and a 32-bit two-valued unsigned constant base. -/
theorem c10_witness :
    ([Lvalue.mk t4 (.transmute (.mk t4
        (.index (.mk (.arr 1 0 t4) (.var 0)) ⟨int32Ty, .const 1⟩ 0))),
      Lvalue.mk t4 (.transmute (.mk t4
        (.index (.mk (.arr 1 0 t4) (.var 0)) ⟨int32Ty, .const 0⟩ 0)))] : List Lvalue)[0]? =
      (packTy t4 (.mk t4 (.index (.mk (.arr 1 0 t4) (.var 0))
        ⟨int32Ty, .const ((2 - 1 - 0 : Nat) : Int)⟩ 0))).toOption := by
  have h := c10_internal_index_encoding.1 t4 (.mk (.arr 1 0 t4) (.var 0)) 2
    [Lvalue.mk t4 (.transmute (.mk t4
      (.index (.mk (.arr 1 0 t4) (.var 0)) ⟨int32Ty, .const 1⟩ 0))),
     Lvalue.mk t4 (.transmute (.mk t4
      (.index (.mk (.arr 1 0 t4) (.var 0)) ⟨int32Ty, .const 0⟩ 0)))] 0
    (by try simp [packElems, packTy, t4, Lvalue.isError, Lvalue.ty, UnpackedType.sbvtOf,
          UnpackedType.bitSize, UnpackedType.domain, UnpackedType.signOf,
          UnpackedType.sbvToUnpacked, UnpackedType.coalescesToLlhdScalar])
    (by omega)
  exact h

end Moore
